import Mathlib

/-!
Verification development for `scripts/generate-icons.py`, a minimal PNG
encoder that writes three radially shaded icon files.

Bytes are modelled as natural numbers (each meaningful value lies in
`[0, 256)`); byte strings are `List ℕ`.  Python's floating-point
arithmetic is modelled twice: once idealized by exact real arithmetic
(`ℝ`), used for the claims that are insensitive to rounding, and once
bit-faithfully by IEEE-754 binary64 value semantics over `ℚ` (the
definitions suffixed `F`), used where double rounding is observable in
the emitted bytes.  Python's `int(...)` conversion (truncation toward
zero) is `pyInt` respectively `pyIntQ`.  The external `zlib.compress`
routine is modelled as an explicit function parameter, while
`zlib.crc32` is modelled by the standard CRC-32 algorithm (polynomial
0xEDB88320, initial value 0xFFFFFFFF, reflected, final complement),
which is the algorithm zlib documents and implements.
-/

namespace GenerateIcons

/-- Big-endian 4-byte encoding of a natural number, as produced by
`struct.pack` with one unsigned 32-bit field for values below `2^32`. -/
def u32be (n : ℕ) : List ℕ :=
  [n / 16777216 % 256, n / 65536 % 256, n / 256 % 256, n % 256]

/-- One shift-and-conditionally-xor step of the reflected CRC-32 with
polynomial 0xEDB88320. -/
def crc32Step (c : ℕ) : ℕ :=
  if c % 2 = 1 then 3988292384 ^^^ c / 2 else c / 2

/-- Iterate `crc32Step` a given number of times. -/
def crc32Steps : ℕ → ℕ → ℕ
  | 0, c => c
  | n + 1, c => crc32Steps n (crc32Step c)

/-- Fold one data byte into the CRC-32 accumulator: xor the byte in and
perform eight shift steps. -/
def crc32Update (c b : ℕ) : ℕ := crc32Steps 8 (c ^^^ b)

/-- Standard zlib/PNG CRC-32 of a byte string: initial value 0xFFFFFFFF,
reflected polynomial 0xEDB88320, final complement.  This models the
external `zlib.crc32` library routine used by the script. -/
def crc32 (data : List ℕ) : ℕ :=
  4294967295 ^^^ (data.foldl crc32Update 4294967295)

/-- Translation of `png_chunk(chunk_type, data)`: length-prefixed,
CRC-checksummed PNG chunk.  The `% 4294967296` models the source's
`& 0xffffffff` mask on the CRC value. -/
def png_chunk (chunk_type data : List ℕ) : List ℕ :=
  u32be data.length ++ (chunk_type ++ data)
    ++ u32be (crc32 (chunk_type ++ data) % 4294967296)

/-- Fixed 8-byte PNG signature `\x89PNG\r\n\x1a\n`. -/
def pngSignature : List ℕ := [137, 80, 78, 71, 13, 10, 26, 10]

/-- Chunk type tag `IHDR`, the ASCII bytes of the string. -/
def tagIHDR : List ℕ := [73, 72, 68, 82]

/-- Chunk type tag `IDAT`. -/
def tagIDAT : List ℕ := [73, 68, 65, 84]

/-- Chunk type tag `IEND`. -/
def tagIEND : List ℕ := [73, 69, 78, 68]

/-- Translation of `struct.pack(">IIBBBBB", width, height, 8, 2, 0, 0, 0)`:
the 13-byte IHDR payload. -/
def ihdr_data (width height : ℕ) : List ℕ :=
  u32be width ++ u32be height ++ [8, 2, 0, 0, 0]

/-- Read a big-endian 32-bit integer from the front of a byte string,
returning the value and the remainder. -/
def readU32 : List ℕ → Option (ℕ × List ℕ)
  | a :: b :: c :: d :: rest => some ((((a * 256 + b) * 256 + c) * 256 + d), rest)
  | _ => none

/-- Parse one chunk from the front of a byte string: 4-byte length, 4-byte
type, payload, 4-byte CRC.  Returns type, payload and the remainder. -/
def readChunk (s : List ℕ) : Option (List ℕ × List ℕ × List ℕ) :=
  match readU32 s with
  | none => none
  | some (len, rest) =>
    if 4 + len + 4 ≤ rest.length then
      some (rest.take 4, (rest.drop 4).take len, (rest.drop 4).drop (len + 4))
    else none

/-- Parse the IHDR header out of a PNG byte stream: check the signature,
read the first chunk, check its tag, and decode width, height, bit depth
and color type from its payload. -/
def parseIHDR (png : List ℕ) : Option (ℕ × ℕ × ℕ × ℕ) :=
  if png.take 8 = pngSignature then
    match readChunk (png.drop 8) with
    | some (ctype, cdata, _) =>
      if ctype = tagIHDR then
        match readU32 cdata with
        | some (w, r1) =>
          match readU32 r1 with
          | some (h, r2) =>
            match r2 with
            | bd :: ct :: _ => some (w, h, bd, ct)
            | _ => none
          | none => none
        | none => none
      else none
    | none => none
  else none

/-- Extract the payload of the second chunk of a PNG byte stream, provided
its tag is `IDAT`. -/
def idatPayload (png : List ℕ) : Option (List ℕ) :=
  match readChunk (png.drop 8) with
  | some (_, _, rest1) =>
    match readChunk rest1 with
    | some (ctype, cdata, _) => if ctype = tagIDAT then some cdata else none
    | none => none
  | none => none

/-- Translation of `center_x = width / 2` (Python true division, a real
value). -/
noncomputable def center_x (width : ℕ) : ℝ := width / 2

/-- Translation of `center_y = height / 2`. -/
noncomputable def center_y (height : ℕ) : ℝ := height / 2

/-- Translation of `max_dist = (center_x ** 2 + center_y ** 2) ** 0.5`. -/
noncomputable def max_dist (width height : ℕ) : ℝ :=
  Real.sqrt (center_x width ^ 2 + center_y height ^ 2)

/-- Translation of `dist = ((x - center_x) ** 2 + (y - center_y) ** 2) ** 0.5`
for the pixel at column `x`, row `y`. -/
noncomputable def dist (width height x y : ℕ) : ℝ :=
  Real.sqrt (((x : ℝ) - center_x width) ^ 2 + ((y : ℝ) - center_y height) ^ 2)

/-- Translation of `factor = 1 - (dist / max_dist) * 0.3`. -/
noncomputable def factor (width height x y : ℕ) : ℝ :=
  1 - dist width height x y / max_dist width height * 0.3

/-- Python's `int(...)` conversion of a real number: truncation toward
zero. -/
noncomputable def pyInt (t : ℝ) : ℤ := if 0 ≤ t then ⌊t⌋ else -⌊-t⌋

/-- The three values appended to `raw_data` for the pixel at column `x`,
row `y`: `int(r * factor)`, `int(g * factor)`, `int(b * factor)`. -/
noncomputable def pixel_triple (width height x y r g b : ℕ) : List ℤ :=
  [pyInt ((r : ℝ) * factor width height x y),
   pyInt ((g : ℝ) * factor width height x y),
   pyInt ((b : ℝ) * factor width height x y)]

/-- Translation of the nested loops that build `raw_data`: for each row,
append the filter byte `0`, then for each column append the pixel
triple.  The accumulating appends mirror `raw_data.append(...)`. -/
noncomputable def raw_data (width height r g b : ℕ) : List ℤ :=
  (List.range height).foldl
    (fun acc y =>
      (List.range width).foldl
        (fun acc2 x => acc2 ++ pixel_triple width height x y r g b)
        (acc ++ [0]))
    []

/-- Translation of `bytes(raw_data)`: the raw values as natural-number
bytes.  Python's `bytes` conversion succeeds exactly when every value
lies in `[0, 256)`, which is proved separately for valid inputs. -/
noncomputable def raw_bytes (width height r g b : ℕ) : List ℕ :=
  (raw_data width height r g b).map Int.toNat

/-- Translation of `create_png(width, height, r, g, b)`.  The external
`zlib.compress(..., 9)` call is modelled by the function parameter
`compress`; everything else follows the source line by line: signature,
IHDR chunk, IDAT chunk holding the compressed pixel buffer, IEND chunk. -/
noncomputable def create_png (compress : List ℕ → List ℕ)
    (width height r g b : ℕ) : List ℕ :=
  pngSignature
    ++ png_chunk tagIHDR (ihdr_data width height)
    ++ png_chunk tagIDAT (compress (raw_bytes width height r g b))
    ++ png_chunk tagIEND []

/-- Translation of the module-level driver: the three file writes it
performs, in program order, as (file name, file contents) pairs.  All
three calls share the base color `r, g, b = 99, 102, 241`. -/
noncomputable def main_writes (compress : List ℕ → List ℕ) :
    List (String × List ℕ) :=
  [("pwa-192x192.png", create_png compress 192 192 99 102 241),
   ("pwa-512x512.png", create_png compress 512 512 99 102 241),
   ("apple-touch-icon.png", create_png compress 180 180 99 102 241)]

/-- Pixel buffer as described by the spec, for the round-trip claim: for
each row a filter byte `0` followed by, for each column, the bytes
`floor(r*factor)`, `floor(g*factor)`, `floor(b*factor)`. -/
noncomputable def refPixelGrid (width height r g b : ℕ) : List ℕ :=
  (List.range height).flatMap fun y =>
    0 :: ((List.range width).flatMap fun x =>
      [(⌊(r : ℝ) * factor width height x y⌋).toNat,
       (⌊(g : ℝ) * factor width height x y⌋).toNat,
       (⌊(b : ℝ) * factor width height x y⌋).toNat])

/-- Scanline for row `y` in flat form: filter byte `0` followed by the
pixel triples of the row.  Used to restate `raw_data` without the
accumulating folds. -/
noncomputable def row_data (width height y r g b : ℕ) : List ℤ :=
  0 :: (List.range width).flatMap fun x => pixel_triple width height x y r g b

/-!
### Bit-faithful binary64 model

The definitions above idealize Python's IEEE-754 double arithmetic by
exact real arithmetic.  The rounding of doubles is observable in the
emitted bytes (for example the corner factor computes to the double
nearest 0.7, which is slightly below 0.7, so `int(90 * factor)` is 62
while the exact-real floor is 63).  The definitions below model the
pixel pipeline bit-faithfully: a double is represented by its exact
rational value, and every operation rounds its exact rational result to
53 significant bits with round-to-nearest, ties-to-even.  All inputs
reachable from the program stay in the normal range, far from overflow
and underflow, so exponent clamping is not modelled.
-/

/-- Fuel-driven base-2 logarithm on naturals: `nlog2 fuel n` is
`⌊log2 n⌋` for `n ≥ 1` whenever `fuel ≥ n`.  Structural recursion on
the fuel keeps it kernel-evaluable. -/
def nlog2 : ℕ → ℕ → ℕ
  | 0, _ => 0
  | fuel + 1, n => if n ≤ 1 then 0 else nlog2 fuel (n / 2) + 1

/-- Integer power of two as a rational, for signed exponents. -/
def pow2 (k : ℤ) : ℚ :=
  if 0 ≤ k then ((2 ^ k.toNat : ℕ) : ℚ) else (((2 ^ (-k).toNat : ℕ) : ℚ))⁻¹

/-- Binary exponent of a positive rational: the `e` with
`2^e ≤ q < 2^(e+1)`, located from the bit lengths of numerator and
denominator and one comparison. -/
def ratLog2 (q : ℚ) : ℤ :=
  let a := q.num.toNat
  let b := q.den
  let k : ℤ := (nlog2 a a : ℤ) - (nlog2 b b : ℤ)
  if q < pow2 k then k - 1 else k

/-- Round a positive rational to 53 significant bits, round to nearest
with ties to even: scale into `[2^52, 2^53)`, split off the fractional
part, and round the integer significand. -/
def round64Pos (q : ℚ) : ℚ :=
  let e := ratLog2 q
  let t := q * pow2 (52 - e)
  let n0 := ⌊t⌋
  let r := t - (n0 : ℚ)
  let n : ℤ :=
    if 1 / 2 < r then n0 + 1
    else if r < 1 / 2 then n0
    else if n0 % 2 = 0 then n0 else n0 + 1
  (n : ℚ) * pow2 (e - 52)

/-- Round an exact rational value to the nearest IEEE-754 binary64
value (normal range), extending `round64Pos` to zero and negatives by
symmetry. -/
def round64 (q : ℚ) : ℚ :=
  if q = 0 then 0 else if q < 0 then -round64Pos (-q) else round64Pos q

/-- Binary64 addition: exact sum, then one rounding. -/
def fadd (a b : ℚ) : ℚ := round64 (a + b)

/-- Binary64 subtraction: exact difference, then one rounding. -/
def fsub (a b : ℚ) : ℚ := round64 (a - b)

/-- Binary64 multiplication: exact product, then one rounding. -/
def fmul (a b : ℚ) : ℚ := round64 (a * b)

/-- Binary64 division: exact quotient, then one rounding. -/
def fdiv (a b : ℚ) : ℚ := round64 (a / b)

/-- Newton iteration step for the integer square root, with fuel for
structural recursion; the iteration stops as soon as it no longer
decreases, which happens exactly at `⌊√n⌋` when started above it. -/
def isqrtAux : ℕ → ℕ → ℕ → ℕ
  | 0, _, g => g
  | fuel + 1, n, g =>
    let g2 := (g + n / g) / 2
    if g2 < g then isqrtAux fuel n g2 else g

/-- Integer square root `⌊√n⌋` by Newton iteration from `g = n`. -/
def isqrt (n : ℕ) : ℕ := if n ≤ 1 then n else isqrtAux n n n

/-- Correctly rounded binary64 square root of an exact rational: scale
so that the root lies in `[2^52, 2^53)`, take the integer square root,
and pick the nearest significand with ties to even.  Python's `** 0.5`
on these values is the correctly rounded square root. -/
def fsqrt (q : ℚ) : ℚ :=
  if q ≤ 0 then 0
  else
    let e2 := ratLog2 q
    let e : ℤ := (if e2 % 2 = 0 then e2 else e2 - 1) / 2
    let t := q * pow2 (104 - 2 * e)
    let s0 := isqrt ⌊t⌋.toNat
    let n : ℕ :=
      if t ≤ ((s0 : ℚ) + 1 / 2) ^ 2 then
        (if t = ((s0 : ℚ) + 1 / 2) ^ 2 ∧ s0 % 2 = 1 then s0 + 1 else s0)
      else s0 + 1
    (n : ℚ) * pow2 (e - 52)

/-- Python's `int(...)` on a rational value: truncation toward zero. -/
def pyIntQ (q : ℚ) : ℤ := if 0 ≤ q then ⌊q⌋ else -⌊-q⌋

/-- The binary64 value of the literal `0.3`. -/
def lit03 : ℚ := round64 (3 / 10)

/-- Binary64 version of `center_x = width / 2`. -/
def center_xF (width : ℕ) : ℚ := fdiv (width : ℚ) 2

/-- Binary64 version of `center_y = height / 2`. -/
def center_yF (height : ℕ) : ℚ := fdiv (height : ℚ) 2

/-- Binary64 version of `max_dist = (center_x ** 2 + center_y ** 2) ** 0.5`. -/
def max_distF (width height : ℕ) : ℚ :=
  fsqrt (fadd (fmul (center_xF width) (center_xF width))
    (fmul (center_yF height) (center_yF height)))

/-- Binary64 version of
`dist = ((x - center_x) ** 2 + (y - center_y) ** 2) ** 0.5`. -/
def distF (width height x y : ℕ) : ℚ :=
  fsqrt (fadd
    (fmul (fsub (x : ℚ) (center_xF width)) (fsub (x : ℚ) (center_xF width)))
    (fmul (fsub (y : ℚ) (center_yF height)) (fsub (y : ℚ) (center_yF height))))

/-- Binary64 version of `factor = 1 - (dist / max_dist) * 0.3`. -/
def factorF (width height x y : ℕ) : ℚ :=
  fsub 1 (fmul (fdiv (distF width height x y) (max_distF width height)) lit03)

/-- Binary64 version of the three values appended for one pixel:
`int(r * factor)`, `int(g * factor)`, `int(b * factor)`. -/
def pixel_tripleF (width height x y r g b : ℕ) : List ℤ :=
  [pyIntQ (fmul (r : ℚ) (factorF width height x y)),
   pyIntQ (fmul (g : ℚ) (factorF width height x y)),
   pyIntQ (fmul (b : ℚ) (factorF width height x y))]

/-- Binary64 version of the `raw_data` loops. -/
def raw_dataF (width height r g b : ℕ) : List ℤ :=
  (List.range height).foldl
    (fun acc y =>
      (List.range width).foldl
        (fun acc2 x => acc2 ++ pixel_tripleF width height x y r g b)
        (acc ++ [0]))
    []

/-- Binary64 version of `bytes(raw_data)`. -/
def raw_bytesF (width height r g b : ℕ) : List ℕ :=
  (raw_dataF width height r g b).map Int.toNat

/-- Binary64 version of `create_png`: identical chunk structure, pixel
buffer computed bit-faithfully. -/
def create_pngF (compress : List ℕ → List ℕ)
    (width height r g b : ℕ) : List ℕ :=
  pngSignature
    ++ png_chunk tagIHDR (ihdr_data width height)
    ++ png_chunk tagIDAT (compress (raw_bytesF width height r g b))
    ++ png_chunk tagIEND []

/-- Binary64 scanline for row `y` in flat form. -/
def row_dataF (width height y r g b : ℕ) : List ℤ :=
  0 :: (List.range width).flatMap fun x => pixel_tripleF width height x y r g b

/-- Pixel grid as described by the amended round-trip claim: per row a
filter byte `0` followed by the truncations of the binary64 products,
per pixel. -/
def refPixelGridF (width height r g b : ℕ) : List ℕ :=
  (List.range height).flatMap fun y =>
    0 :: ((List.range width).flatMap fun x =>
      [(pyIntQ (fmul (r : ℚ) (factorF width height x y))).toNat,
       (pyIntQ (fmul (g : ℚ) (factorF width height x y))).toNat,
       (pyIntQ (fmul (b : ℚ) (factorF width height x y))).toNat])

/-! ### General helper lemmas -/

/-- Folding with appends equals the initial segment followed by the
flattened pieces. -/
theorem foldl_append_eq {α β : Type} (f : β → List α) (l : List β)
    (init : List α) :
    l.foldl (fun acc x => acc ++ f x) init = init ++ l.flatMap f := by
  induction l generalizing init with
  | nil => simp
  | cons a t ih => simp [ih, List.append_assoc]

/-- Length of a flattened map whose pieces all have the same length. -/
theorem flatMap_const_length {α : Type} (f : ℕ → List α) (L : ℕ)
    (l : List ℕ) (h : ∀ i ∈ l, (f i).length = L) :
    (l.flatMap f).length = l.length * L := by
  induction l with
  | nil => simp
  | cons a t ih =>
    rw [List.flatMap_cons, List.length_append, h a (by simp),
      ih (fun i hi => h i (by simp [hi])), List.length_cons]
    ring

/-- Pointwise-equal piece functions flatten to the same list over a
range. -/
theorem flatMap_range_congr {α : Type} (f f' : ℕ → List α) (n : ℕ)
    (h : ∀ i, i < n → f i = f' i) :
    (List.range n).flatMap f = (List.range n).flatMap f' := by
  induction n with
  | zero => rfl
  | succ m ih =>
    rw [List.range_succ, List.flatMap_append, List.flatMap_append,
      ih (fun i hi => h i (by omega))]
    simp [h m (by omega)]

/-- Indexing into a flattened map whose pieces all have length `L`: the
entry at `k * L + j` is the entry at `j` of piece `k`. -/
theorem flatMap_const_getElem {α : Type} :
    ∀ (k : ℕ) (f : ℕ → List α) (L n j : ℕ),
      (∀ i, i < n → (f i).length = L) → k < n → j < L →
      ((List.range n).flatMap f)[k * L + j]? = (f k)[j]? := by
  intro k
  induction k with
  | zero =>
    intro f L n j hL hk hj
    obtain ⟨m, rfl⟩ : ∃ m, n = m + 1 := ⟨n - 1, by omega⟩
    rw [List.range_succ_eq_map, List.flatMap_cons, Nat.zero_mul,
      Nat.zero_add]
    exact List.getElem?_append_left (by rw [hL 0 (by omega)]; exact hj)
  | succ p ih =>
    intro f L n j hL hk hj
    obtain ⟨m, rfl⟩ : ∃ m, n = m + 1 := ⟨n - 1, by omega⟩
    rw [List.range_succ_eq_map, List.flatMap_cons]
    have hidx : (p + 1) * L + j = (f 0).length + (p * L + j) := by
      rw [hL 0 (by omega)]; ring
    rw [hidx, List.getElem?_append_right (by omega),
      Nat.add_sub_cancel_left, List.flatMap_map]
    have hL' : ∀ i, i < m → (f (Nat.succ i)).length = L :=
      fun i hi => hL (i + 1) (by omega)
    exact ih (fun a => f (Nat.succ a)) L m j hL' (by omega) hj

/-! ### Serialization helpers -/

/-- Length of a big-endian 32-bit encoding. -/
theorem u32be_length (n : ℕ) : (u32be n).length = 4 := rfl

/-- Reading back a big-endian 32-bit encoding recovers the value for
numbers below `2^32`. -/
theorem readU32_u32be (n : ℕ) (rest : List ℕ) (hn : n < 4294967296) :
    readU32 (u32be n ++ rest) = some (n, rest) := by
  simp only [u32be, List.cons_append, List.nil_append, readU32,
    Option.some.injEq, Prod.mk.injEq]
  exact ⟨by omega, trivial⟩

/-- Xor of two 32-bit values is a 32-bit value. -/
theorem xor_lt_32 {x y : ℕ} (hx : x < 4294967296) (hy : y < 4294967296) :
    x ^^^ y < 4294967296 := by
  have h : (4294967296 : ℕ) = 2 ^ 32 := by norm_num
  rw [h] at hx hy ⊢
  exact Nat.xor_lt_two_pow hx hy

/-- One CRC-32 shift step keeps the accumulator below `2^32`. -/
theorem crc32Step_lt (c : ℕ) (hc : c < 4294967296) :
    crc32Step c < 4294967296 := by
  unfold crc32Step
  split
  · exact xor_lt_32 (by norm_num) (by omega)
  · omega

/-- Iterated CRC-32 shift steps keep the accumulator below `2^32`. -/
theorem crc32Steps_lt (n : ℕ) :
    ∀ c : ℕ, c < 4294967296 → crc32Steps n c < 4294967296 := by
  induction n with
  | zero => intro c hc; exact hc
  | succ k ih =>
    intro c hc
    exact ih (crc32Step c) (crc32Step_lt c hc)

/-- Folding a byte into the CRC-32 accumulator keeps it below `2^32`. -/
theorem crc32Update_lt (c b : ℕ) (hc : c < 4294967296) (hb : b < 256) :
    crc32Update c b < 4294967296 :=
  crc32Steps_lt 8 _ (xor_lt_32 hc (by omega))

/-- The CRC-32 fold over a byte string stays below `2^32`. -/
theorem crc32_foldl_lt (l : List ℕ) :
    ∀ c : ℕ, c < 4294967296 → (∀ v ∈ l, v < 256) →
    l.foldl crc32Update c < 4294967296 := by
  induction l with
  | nil => intro c hc _; exact hc
  | cons a t ih =>
    intro c hc hl
    exact ih _ (crc32Update_lt c a hc (hl a (by simp)))
      (fun v hv => hl v (by simp [hv]))

/-- The CRC-32 of a byte string is a 32-bit value, so the source's
`& 0xffffffff` mask never changes it. -/
theorem crc32_lt (l : List ℕ) (hl : ∀ v ∈ l, v < 256) :
    crc32 l < 4294967296 :=
  xor_lt_32 (by norm_num) (crc32_foldl_lt l 4294967295 (by norm_num) hl)

/-- Parsing a serialized chunk from the front of a byte string recovers
its tag, its payload, and the remainder. -/
theorem readChunk_png_chunk (t d rest : List ℕ) (ht : t.length = 4)
    (hd : d.length < 4294967296) :
    readChunk (png_chunk t d ++ rest) = some (t, d, rest) := by
  have hstruct : png_chunk t d ++ rest
      = u32be d.length
        ++ (t ++ (d ++ (u32be (crc32 (t ++ d) % 4294967296) ++ rest))) := by
    unfold png_chunk
    simp [List.append_assoc]
  rw [hstruct]
  unfold readChunk
  rw [readU32_u32be _ _ hd]
  have hlen : 4 + d.length + 4
      ≤ (t ++ (d ++ (u32be (crc32 (t ++ d) % 4294967296) ++ rest))).length := by
    simp [List.length_append, ht, u32be_length]
    omega
  dsimp only
  rw [if_pos hlen]
  have h1 : (t ++ (d ++ (u32be (crc32 (t ++ d) % 4294967296) ++ rest))).take 4
      = t := List.take_left' ht
  have h2 : (t ++ (d ++ (u32be (crc32 (t ++ d) % 4294967296) ++ rest))).drop 4
      = d ++ (u32be (crc32 (t ++ d) % 4294967296) ++ rest) :=
    List.drop_left' ht
  rw [h1, h2]
  have h3 : (d ++ (u32be (crc32 (t ++ d) % 4294967296) ++ rest)).take d.length
      = d := List.take_left _ _
  have h4 : (d ++ (u32be (crc32 (t ++ d) % 4294967296) ++ rest)).drop
        (d.length + 4)
      = rest := by
    rw [← List.drop_drop, List.drop_left,
      List.drop_left' (u32be_length _)]
  rw [h3, h4]

/-- Length of the IHDR payload is 13 bytes. -/
theorem ihdr_data_length (w h : ℕ) : (ihdr_data w h).length = 13 := by
  simp [ihdr_data, u32be]

/-- The first 8 bytes of an encoded PNG are the signature. -/
theorem create_png_take8 (compress : List ℕ → List ℕ) (w h r g b : ℕ) :
    (create_png compress w h r g b).take 8 = pngSignature := by
  unfold create_png
  rw [List.append_assoc, List.append_assoc]
  exact List.take_left' rfl

/-- Dropping the signature of an encoded PNG leaves the three chunks. -/
theorem create_png_drop8 (compress : List ℕ → List ℕ) (w h r g b : ℕ) :
    (create_png compress w h r g b).drop 8
      = png_chunk tagIHDR (ihdr_data w h)
        ++ (png_chunk tagIDAT (compress (raw_bytes w h r g b))
          ++ png_chunk tagIEND []) := by
  unfold create_png
  rw [List.append_assoc, List.append_assoc]
  exact List.drop_left' rfl

/-! ### Gradient arithmetic -/

/-- Distance from the image center to the corner of the coordinate box is
positive whenever the width is positive. -/
theorem max_dist_pos (w h : ℕ) (hw : 1 ≤ w) : 0 < max_dist w h := by
  unfold max_dist
  apply Real.sqrt_pos.mpr
  have hw1 : (1 : ℝ) ≤ (w : ℝ) := by exact_mod_cast hw
  have hcx : (0 : ℝ) < center_x w := by
    unfold center_x; linarith
  have h1 : (0 : ℝ) < center_x w ^ 2 := by positivity
  have h2 : (0 : ℝ) ≤ center_y h ^ 2 := sq_nonneg _
  linarith

/-- Every pixel of the image lies no farther from the center than
`max_dist`. -/
theorem dist_le_max_dist (w h x y : ℕ) (hx : x < w) (hy : y < h) :
    dist w h x y ≤ max_dist w h := by
  unfold dist max_dist
  apply Real.sqrt_le_sqrt
  have hx0 : (0 : ℝ) ≤ (x : ℝ) := Nat.cast_nonneg x
  have hy0 : (0 : ℝ) ≤ (y : ℝ) := Nat.cast_nonneg y
  have hxw : (x : ℝ) ≤ (w : ℝ) := by exact_mod_cast Nat.le_of_lt hx
  have hyh : (y : ℝ) ≤ (h : ℝ) := by exact_mod_cast Nat.le_of_lt hy
  have h1 : ((x : ℝ) - center_x w) ^ 2 ≤ center_x w ^ 2 := by
    apply sq_le_sq'
    · unfold center_x; linarith
    · unfold center_x; linarith
  have h2 : ((y : ℝ) - center_y h) ^ 2 ≤ center_y h ^ 2 := by
    apply sq_le_sq'
    · unfold center_y; linarith
    · unfold center_y; linarith
  linarith

/-- The gradient factor of every pixel lies in `[0.7, 1]`. -/
theorem factor_bounds (w h x y : ℕ) (hx : x < w) (hy : y < h) :
    0.7 ≤ factor w h x y ∧ factor w h x y ≤ 1 := by
  unfold factor
  have hm : 0 < max_dist w h := max_dist_pos w h (by omega)
  have hd0 : 0 ≤ dist w h x y := Real.sqrt_nonneg _
  have hdm : dist w h x y ≤ max_dist w h := dist_le_max_dist w h x y hx hy
  have hr1 : dist w h x y / max_dist w h ≤ 1 := (div_le_one hm).mpr hdm
  have hr0 : 0 ≤ dist w h x y / max_dist w h := div_nonneg hd0 hm.le
  have h03 : (0.3 : ℝ) = 3 / 10 := by norm_num
  have h07 : (0.7 : ℝ) = 7 / 10 := by norm_num
  rw [h03, h07]
  constructor <;> nlinarith

/-- Truncation toward zero agrees with the floor on nonnegative reals. -/
theorem pyInt_eq_floor (t : ℝ) (ht : 0 ≤ t) : pyInt t = ⌊t⌋ := if_pos ht

/-- Scaled color components are nonnegative. -/
theorem pixel_val_nonneg (w h x y c : ℕ) (hx : x < w) (hy : y < h) :
    0 ≤ (c : ℝ) * factor w h x y :=
  mul_nonneg (Nat.cast_nonneg c)
    (le_trans (by norm_num) (factor_bounds w h x y hx hy).1)

/-- The truncated scaled color components lie in `[0, c]`. -/
theorem pixel_floor_bounds (w h x y c : ℕ) (hx : x < w) (hy : y < h) :
    0 ≤ ⌊(c : ℝ) * factor w h x y⌋ ∧ ⌊(c : ℝ) * factor w h x y⌋ ≤ (c : ℤ) := by
  constructor
  · exact Int.floor_nonneg.mpr (pixel_val_nonneg w h x y c hx hy)
  · have h1 : (c : ℝ) * factor w h x y ≤ (c : ℝ) :=
      mul_le_of_le_one_right (Nat.cast_nonneg c)
        (factor_bounds w h x y hx hy).2
    have h2 : ⌊(c : ℝ) * factor w h x y⌋ ≤ ⌊(c : ℝ)⌋ := Int.floor_mono h1
    rwa [Int.floor_natCast] at h2

/-! ### Pixel buffer structure -/

/-- The accumulated `raw_data` loops flatten to one scanline per row. -/
theorem raw_data_eq (w h r g b : ℕ) :
    raw_data w h r g b
      = (List.range h).flatMap fun y => row_data w h y r g b := by
  unfold raw_data
  have hfun : (fun (acc : List ℤ) (y : ℕ) =>
        (List.range w).foldl
          (fun acc2 x => acc2 ++ pixel_triple w h x y r g b) (acc ++ [0]))
      = fun acc y => acc ++ row_data w h y r g b := by
    funext acc y
    rw [foldl_append_eq]
    simp [row_data, List.append_assoc]
  rw [hfun, foldl_append_eq, List.nil_append]

/-- Length of one scanline: a filter byte plus three bytes per pixel. -/
theorem row_data_length (w h y r g b : ℕ) :
    (row_data w h y r g b).length = 1 + 3 * w := by
  unfold row_data
  rw [List.length_cons,
    flatMap_const_length (fun x => pixel_triple w h x y r g b) 3
      (List.range w) (fun i _ => rfl), List.length_range]
  omega

/-- Length of the whole pixel buffer. -/
theorem raw_data_length (w h r g b : ℕ) :
    (raw_data w h r g b).length = h * (1 + 3 * w) := by
  rw [raw_data_eq,
    flatMap_const_length _ (1 + 3 * w) _
      (fun i _ => row_data_length w h i r g b), List.length_range]

/-- Each scanline of the pixel buffer starts with the filter byte `0`. -/
theorem raw_data_filter_byte (w h r g b y : ℕ) (hy : y < h) :
    (raw_data w h r g b)[y * (1 + 3 * w)]? = some 0 := by
  rw [raw_data_eq]
  have h0 := flatMap_const_getElem y (fun i => row_data w h i r g b)
    (1 + 3 * w) h 0 (fun i _ => row_data_length w h i r g b) hy (by omega)
  rw [Nat.add_zero] at h0
  rw [h0]
  simp [row_data]

/-- Indexing formula for single components of a pixel. -/
theorem raw_data_getElem (w h x y r g b j : ℕ) (hx : x < w) (hy : y < h)
    (hj : j < 3) :
    (raw_data w h r g b)[y * (1 + 3 * w) + (1 + (3 * x + j))]?
      = (pixel_triple w h x y r g b)[j]? := by
  rw [raw_data_eq,
    flatMap_const_getElem y (fun i => row_data w h i r g b) (1 + 3 * w) h
      (1 + (3 * x + j)) (fun i _ => row_data_length w h i r g b) hy
      (by omega)]
  unfold row_data
  rw [show 1 + (3 * x + j) = (3 * x + j) + 1 by omega,
    List.getElem?_cons_succ, show 3 * x + j = x * 3 + j by ring]
  exact flatMap_const_getElem x (fun i => pixel_triple w h i y r g b) 3 w j
    (fun i _ => rfl) hx hj

/-- The three buffer entries of the pixel at column `x`, row `y` are the
floors of the scaled color components. -/
theorem raw_data_pixel (w h x y r g b : ℕ) (hx : x < w) (hy : y < h) :
    (raw_data w h r g b)[y * (1 + 3 * w) + (1 + 3 * x)]?
        = some ⌊(r : ℝ) * factor w h x y⌋
  ∧ (raw_data w h r g b)[y * (1 + 3 * w) + (1 + 3 * x) + 1]?
        = some ⌊(g : ℝ) * factor w h x y⌋
  ∧ (raw_data w h r g b)[y * (1 + 3 * w) + (1 + 3 * x) + 2]?
        = some ⌊(b : ℝ) * factor w h x y⌋ := by
  have h0 := raw_data_getElem w h x y r g b 0 hx hy (by omega)
  have h1 := raw_data_getElem w h x y r g b 1 hx hy (by omega)
  have h2 := raw_data_getElem w h x y r g b 2 hx hy (by omega)
  rw [show y * (1 + 3 * w) + (1 + (3 * x + 0))
      = y * (1 + 3 * w) + (1 + 3 * x) by omega] at h0
  rw [show y * (1 + 3 * w) + (1 + (3 * x + 1))
      = y * (1 + 3 * w) + (1 + 3 * x) + 1 by omega] at h1
  rw [show y * (1 + 3 * w) + (1 + (3 * x + 2))
      = y * (1 + 3 * w) + (1 + 3 * x) + 2 by omega] at h2
  rw [h0, h1, h2]
  unfold pixel_triple
  refine ⟨?_, ?_, ?_⟩ <;>
    simp [pyInt_eq_floor _ (pixel_val_nonneg w h x y _ hx hy)]

/-- The byte buffer handed to the compressor coincides with the pixel
grid described by the reference gradient formula. -/
theorem raw_bytes_eq_ref (w h r g b : ℕ) :
    raw_bytes w h r g b = refPixelGrid w h r g b := by
  unfold raw_bytes refPixelGrid
  rw [raw_data_eq, List.map_flatMap]
  apply flatMap_range_congr
  intro y hy
  unfold row_data
  rw [List.map_cons, List.map_flatMap]
  have hz : (0 : ℤ).toNat = 0 := rfl
  rw [hz]
  congr 1
  apply flatMap_range_congr
  intro x hx
  unfold pixel_triple
  simp [pyInt_eq_floor _ (pixel_val_nonneg w h x y _ hx hy)]

/-! ### Claim theorems -/

/-- Claim C2: the encoded byte stream is exactly the signature followed
by the IHDR chunk, the IDAT chunk and the IEND chunk, with nothing
else; in particular it begins with the 8-byte PNG signature. -/
theorem c2_stream_layout (compress : List ℕ → List ℕ) (w h r g b : ℕ) :
    create_png compress w h r g b
      = pngSignature
        ++ (png_chunk tagIHDR (ihdr_data w h)
          ++ (png_chunk tagIDAT (compress (raw_bytes w h r g b))
            ++ png_chunk tagIEND []))
  ∧ (create_png compress w h r g b).take 8 = pngSignature :=
  ⟨by unfold create_png; simp [List.append_assoc],
    create_png_take8 compress w h r g b⟩

/-- Claim C3: a serialized chunk is the big-endian length of the data,
the type tag, the data, and the big-endian CRC-32 of tag plus data —
the length counts only the data and the CRC covers tag and data but not
the length. -/
theorem c3_chunk_serialization (t d : List ℕ)
    (hbytes : ∀ v ∈ t ++ d, v < 256) :
    png_chunk t d = u32be d.length ++ t ++ d ++ u32be (crc32 (t ++ d)) := by
  unfold png_chunk
  rw [Nat.mod_eq_of_lt (crc32_lt _ hbytes)]
  simp [List.append_assoc]

/-- Witness for C3 at the concrete IEND chunk (empty payload). -/
theorem c3_chunk_serialization_witness :
    (∀ v ∈ tagIEND ++ ([] : List ℕ), v < 256)
  ∧ png_chunk tagIEND []
      = u32be (List.length ([] : List ℕ)) ++ tagIEND ++ []
        ++ u32be (crc32 (tagIEND ++ [])) :=
  ⟨by decide, c3_chunk_serialization tagIEND [] (by decide)⟩

/-- Claim C4: the IHDR payload carries width and height big-endian,
bit depth 8, color type 2, compression 0, filter 0, interlace 0, and
parsing the IHDR back out of the output reports the width, height,
bit depth 8 and color type 2 that were passed in. -/
theorem c4_ihdr_roundtrip (compress : List ℕ → List ℕ) (w h r g b : ℕ)
    (hw : w < 4294967296) (hh : h < 4294967296) :
    ihdr_data w h = u32be w ++ u32be h ++ [8, 2, 0, 0, 0]
  ∧ parseIHDR (create_png compress w h r g b) = some (w, h, 8, 2) := by
  refine ⟨rfl, ?_⟩
  unfold parseIHDR
  rw [create_png_take8, if_pos rfl, create_png_drop8,
    readChunk_png_chunk tagIHDR (ihdr_data w h) _ rfl
      (by rw [ihdr_data_length]; omega)]
  dsimp only
  rw [if_pos rfl]
  have hi : ihdr_data w h = u32be w ++ (u32be h ++ [8, 2, 0, 0, 0]) := by
    unfold ihdr_data
    simp [List.append_assoc]
  rw [hi, readU32_u32be _ _ hw]
  dsimp only
  rw [readU32_u32be _ _ hh]

/-- Witness for C4 at the concrete input (1, 1, 0, 0, 0) with the
identity compressor. -/
theorem c4_ihdr_roundtrip_witness :
    (1 : ℕ) < 4294967296
  ∧ (ihdr_data 1 1 = u32be 1 ++ u32be 1 ++ [8, 2, 0, 0, 0]
    ∧ parseIHDR (create_png id 1 1 0 0 0) = some (1, 1, 8, 2)) :=
  ⟨by norm_num, c4_ihdr_roundtrip id 1 1 0 0 0 (by norm_num) (by norm_num)⟩

/-- Claim C5: the uncompressed pixel buffer has length exactly
`height * (1 + width*3)` and each row starts with the filter-type
marker 0 at offset `y * (1 + width*3)`. -/
theorem c5_buffer_shape (w h r g b y : ℕ) (hy : y < h) :
    (raw_data w h r g b).length = h * (1 + 3 * w)
  ∧ (raw_data w h r g b)[y * (1 + 3 * w)]? = some 0 :=
  ⟨raw_data_length w h r g b, raw_data_filter_byte w h r g b y hy⟩

/-- Witness for C5 at the concrete input (1, 1, 0, 0, 0), row 0. -/
theorem c5_buffer_shape_witness :
    (0 : ℕ) < 1
  ∧ ((raw_data 1 1 0 0 0).length = 1 * (1 + 3 * 1)
    ∧ (raw_data 1 1 0 0 0)[0 * (1 + 3 * 1)]? = some 0) :=
  ⟨by decide, c5_buffer_shape 1 1 0 0 0 0 (by decide)⟩

/-- Claim C7: on valid inputs the encoder has no failure mode: the
center-to-corner distance is positive (no division by zero) and every
value appended to the pixel buffer lies in [0, 255], so the byte
conversion always succeeds. -/
theorem c7_totality (w h r g b : ℕ) (hw : 1 ≤ w) (hh : 1 ≤ h)
    (hr : r ≤ 255) (hg : g ≤ 255) (hb : b ≤ 255) :
    (∀ v ∈ raw_data w h r g b, 0 ≤ v ∧ v ≤ 255) ∧ 0 < max_dist w h := by
  refine ⟨?_, max_dist_pos w h hw⟩
  intro v hv
  rw [raw_data_eq, List.mem_flatMap] at hv
  obtain ⟨y, hyr, hvrow⟩ := hv
  rw [List.mem_range] at hyr
  unfold row_data at hvrow
  rcases List.mem_cons.mp hvrow with h0 | hmem
  · subst h0
    exact ⟨le_refl 0, by norm_num⟩
  · rw [List.mem_flatMap] at hmem
    obtain ⟨x, hxr, hvt⟩ := hmem
    rw [List.mem_range] at hxr
    unfold pixel_triple at hvt
    have hcr : (r : ℤ) ≤ 255 := by exact_mod_cast hr
    have hcg : (g : ℤ) ≤ 255 := by exact_mod_cast hg
    have hcb : (b : ℤ) ≤ 255 := by exact_mod_cast hb
    simp only [List.mem_cons, List.not_mem_nil, or_false] at hvt
    rcases hvt with rfl | rfl | rfl
    · rw [pyInt_eq_floor _ (pixel_val_nonneg w h x y r hxr hyr)]
      have hbd := pixel_floor_bounds w h x y r hxr hyr
      exact ⟨hbd.1, le_trans hbd.2 hcr⟩
    · rw [pyInt_eq_floor _ (pixel_val_nonneg w h x y g hxr hyr)]
      have hbd := pixel_floor_bounds w h x y g hxr hyr
      exact ⟨hbd.1, le_trans hbd.2 hcg⟩
    · rw [pyInt_eq_floor _ (pixel_val_nonneg w h x y b hxr hyr)]
      have hbd := pixel_floor_bounds w h x y b hxr hyr
      exact ⟨hbd.1, le_trans hbd.2 hcb⟩

/-- Witness for C7 at the concrete input (1, 1, 255, 255, 255). -/
theorem c7_totality_witness :
    (1 : ℕ) ≤ 1 ∧ (255 : ℕ) ≤ 255
  ∧ ((∀ v ∈ raw_data 1 1 255 255 255, 0 ≤ v ∧ v ≤ 255)
    ∧ 0 < max_dist 1 1) :=
  ⟨by decide, by decide,
    c7_totality 1 1 255 255 255 (by decide) (by decide) (by decide)
      (by decide) (by decide)⟩

/-- Claim C8: a pixel at distance 0 from the real-valued midpoint
(width/2, height/2) has factor 1 and its emitted color equals (r, g, b)
exactly. -/
theorem c8_center_pixel (w h x y r g b : ℕ) (hx : x < w) (hy : y < h)
    (hcx : 2 * (x : ℝ) = (w : ℝ)) (hcy : 2 * (y : ℝ) = (h : ℝ)) :
    (raw_data w h r g b)[y * (1 + 3 * w) + (1 + 3 * x)]? = some (r : ℤ)
  ∧ (raw_data w h r g b)[y * (1 + 3 * w) + (1 + 3 * x) + 1]? = some (g : ℤ)
  ∧ (raw_data w h r g b)[y * (1 + 3 * w) + (1 + 3 * x) + 2]?
      = some (b : ℤ) := by
  have hdist : dist w h x y = 0 := by
    unfold dist center_x center_y
    have e1 : (x : ℝ) - (w : ℝ) / 2 = 0 := by linarith
    have e2 : (y : ℝ) - (h : ℝ) / 2 = 0 := by linarith
    rw [e1, e2]
    simp
  have hfac : factor w h x y = 1 := by
    unfold factor
    rw [hdist]
    simp
  have hp := raw_data_pixel w h x y r g b hx hy
  rw [hfac] at hp
  simpa using hp

/-- Witness for C8 at the center pixel (96, 96) of the generated
192x192 icon with base color (99, 102, 241). -/
theorem c8_center_pixel_witness :
    2 * ((96 : ℕ) : ℝ) = ((192 : ℕ) : ℝ)
  ∧ ((raw_data 192 192 99 102 241)[55681]? = some (99 : ℤ)
    ∧ (raw_data 192 192 99 102 241)[55682]? = some (102 : ℤ)
    ∧ (raw_data 192 192 99 102 241)[55683]? = some (241 : ℤ)) := by
  have hc : 2 * ((96 : ℕ) : ℝ) = ((192 : ℕ) : ℝ) := by norm_num
  have hp := c8_center_pixel 192 192 96 96 99 102 241 (by norm_num)
    (by norm_num) hc hc
  norm_num at hp
  exact ⟨hc, hp⟩

/-- Claim C10: the driver performs exactly three writes, in order:
pwa-192x192.png with the 192x192 encoding, pwa-512x512.png with the
512x512 encoding, and apple-touch-icon.png with the 180x180 encoding,
all with base color (99, 102, 241). -/
theorem c10_driver (compress : List ℕ → List ℕ) :
    main_writes compress
      = [("pwa-192x192.png", create_png compress 192 192 99 102 241),
         ("pwa-512x512.png", create_png compress 512 512 99 102 241),
         ("apple-touch-icon.png", create_png compress 180 180 99 102 241)]
  ∧ (main_writes compress).length = 3
  ∧ (main_writes compress).map Prod.fst
      = ["pwa-192x192.png", "pwa-512x512.png", "apple-touch-icon.png"] :=
  ⟨rfl, rfl, rfl⟩

/-! ### Corner factor and binary64 buffer structure -/

/-- The exact-real gradient factor at pixel (0, 0) is exactly 0.7: the
corner distance equals the maximal distance. -/
theorem corner_factor (w h : ℕ) (hw : 1 ≤ w) : factor w h 0 0 = 0.7 := by
  have hd : dist w h 0 0 = max_dist w h := by
    unfold dist max_dist
    norm_num
  unfold factor
  rw [hd, div_self (ne_of_gt (max_dist_pos w h hw))]
  norm_num

/-- The accumulated binary64 pixel loops flatten to one scanline per
row. -/
theorem raw_dataF_eq (w h r g b : ℕ) :
    raw_dataF w h r g b
      = (List.range h).flatMap fun y => row_dataF w h y r g b := by
  unfold raw_dataF
  have hfun : (fun (acc : List ℤ) (y : ℕ) =>
        (List.range w).foldl
          (fun acc2 x => acc2 ++ pixel_tripleF w h x y r g b) (acc ++ [0]))
      = fun acc y => acc ++ row_dataF w h y r g b := by
    funext acc y
    rw [foldl_append_eq]
    simp [row_dataF, List.append_assoc]
  rw [hfun, foldl_append_eq, List.nil_append]

/-- Length of one binary64 scanline. -/
theorem row_dataF_length (w h y r g b : ℕ) :
    (row_dataF w h y r g b).length = 1 + 3 * w := by
  unfold row_dataF
  rw [List.length_cons,
    flatMap_const_length (fun x => pixel_tripleF w h x y r g b) 3
      (List.range w) (fun i _ => rfl), List.length_range]
  omega

/-- Length of the binary64 pixel buffer. -/
theorem raw_dataF_length (w h r g b : ℕ) :
    (raw_dataF w h r g b).length = h * (1 + 3 * w) := by
  rw [raw_dataF_eq,
    flatMap_const_length _ (1 + 3 * w) _
      (fun i _ => row_dataF_length w h i r g b), List.length_range]

/-- Indexing formula for single components of a binary64 pixel. -/
theorem raw_dataF_getElem (w h x y r g b j : ℕ) (hx : x < w) (hy : y < h)
    (hj : j < 3) :
    (raw_dataF w h r g b)[y * (1 + 3 * w) + (1 + (3 * x + j))]?
      = (pixel_tripleF w h x y r g b)[j]? := by
  rw [raw_dataF_eq,
    flatMap_const_getElem y (fun i => row_dataF w h i r g b) (1 + 3 * w) h
      (1 + (3 * x + j)) (fun i _ => row_dataF_length w h i r g b) hy
      (by omega)]
  unfold row_dataF
  rw [show 1 + (3 * x + j) = (3 * x + j) + 1 by omega,
    List.getElem?_cons_succ, show 3 * x + j = x * 3 + j by ring]
  exact flatMap_const_getElem x (fun i => pixel_tripleF w h i y r g b) 3 w j
    (fun i _ => rfl) hx hj

/-- The three binary64 buffer entries of the pixel at column `x`, row
`y` are the truncated binary64 products. -/
theorem raw_dataF_pixel (w h x y r g b : ℕ) (hx : x < w) (hy : y < h) :
    (raw_dataF w h r g b)[y * (1 + 3 * w) + (1 + 3 * x)]?
        = some (pyIntQ (fmul (r : ℚ) (factorF w h x y)))
  ∧ (raw_dataF w h r g b)[y * (1 + 3 * w) + (1 + 3 * x) + 1]?
        = some (pyIntQ (fmul (g : ℚ) (factorF w h x y)))
  ∧ (raw_dataF w h r g b)[y * (1 + 3 * w) + (1 + 3 * x) + 2]?
        = some (pyIntQ (fmul (b : ℚ) (factorF w h x y))) := by
  have h0 := raw_dataF_getElem w h x y r g b 0 hx hy (by omega)
  have h1 := raw_dataF_getElem w h x y r g b 1 hx hy (by omega)
  have h2 := raw_dataF_getElem w h x y r g b 2 hx hy (by omega)
  rw [show y * (1 + 3 * w) + (1 + (3 * x + 0))
      = y * (1 + 3 * w) + (1 + 3 * x) by omega] at h0
  rw [show y * (1 + 3 * w) + (1 + (3 * x + 1))
      = y * (1 + 3 * w) + (1 + 3 * x) + 1 by omega] at h1
  rw [show y * (1 + 3 * w) + (1 + (3 * x + 2))
      = y * (1 + 3 * w) + (1 + 3 * x) + 2 by omega] at h2
  rw [h0, h1, h2]
  unfold pixel_tripleF
  exact ⟨rfl, rfl, rfl⟩

/-- Dropping the signature of a binary64-encoded PNG leaves the three
chunks. -/
theorem create_pngF_drop8 (compress : List ℕ → List ℕ) (w h r g b : ℕ) :
    (create_pngF compress w h r g b).drop 8
      = png_chunk tagIHDR (ihdr_data w h)
        ++ (png_chunk tagIDAT (compress (raw_bytesF w h r g b))
          ++ png_chunk tagIEND []) := by
  unfold create_pngF
  rw [List.append_assoc, List.append_assoc]
  exact List.drop_left' rfl

/-- The IDAT payload of a binary64-encoded PNG is the compressor's
output on the binary64 pixel buffer. -/
theorem idatPayload_create_pngF (compress : List ℕ → List ℕ)
    (w h r g b : ℕ)
    (hlen : (compress (raw_bytesF w h r g b)).length < 4294967296) :
    idatPayload (create_pngF compress w h r g b)
      = some (compress (raw_bytesF w h r g b)) := by
  unfold idatPayload
  rw [create_pngF_drop8,
    readChunk_png_chunk tagIHDR (ihdr_data w h) _ rfl
      (by rw [ihdr_data_length]; omega)]
  dsimp only
  rw [readChunk_png_chunk tagIDAT (compress (raw_bytesF w h r g b)) _ rfl
    hlen]
  dsimp only
  rw [if_pos rfl]

/-- The binary64 byte buffer coincides with the binary64 reference
grid. -/
theorem raw_bytesF_eq_refF (w h r g b : ℕ) :
    raw_bytesF w h r g b = refPixelGridF w h r g b := by
  unfold raw_bytesF refPixelGridF
  rw [raw_dataF_eq, List.map_flatMap]
  apply flatMap_range_congr
  intro y hy
  unfold row_dataF
  rw [List.map_cons, List.map_flatMap]
  exact congrArg (List.cons 0)
    (flatMap_range_congr _ _ _ (fun x hx => rfl))

/-! ### Corrected claims -/

set_option maxRecDepth 40000 in
attribute [local semireducible] Rat.add Rat.sub Rat.mul Rat.inv in
/-- Counterexample to claim C1 as stated: at the valid input
(2, 2, 90, 102, 241), pixel (0, 0), the program emits 62 for the red
component (binary64 arithmetic), while the claim's exact-real formula
floor(r * factor) gives 63. -/
theorem c1_float_counterexample :
    (raw_dataF 2 2 90 102 241)[1]? = some 62
  ∧ ⌊((90 : ℕ) : ℝ) * factor 2 2 0 0⌋ = 63 := by
  constructor
  · have hp := (raw_dataF_pixel 2 2 0 0 90 102 241 (by omega) (by omega)).1
    have hv : pyIntQ (fmul ((90 : ℕ) : ℚ) (factorF 2 2 0 0)) = 62 := by
      decide
    rw [hv] at hp
    simpa using hp
  · rw [corner_factor 2 2 (by norm_num), Int.floor_eq_iff]
    norm_num

/-- Claim C1 (amended): for every valid input and every pixel (x, y)
inside the image, the three values emitted into the pixel buffer for
that pixel are the truncations toward zero of r, g, b times the
gradient factor, with the products and the factor computed in IEEE-754
binary64 arithmetic exactly as the program computes them. -/
theorem c1_pixel_formula_binary64 (w h x y r g b : ℕ) (hw : 1 ≤ w)
    (hh : 1 ≤ h) (hr : r ≤ 255) (hg : g ≤ 255) (hb : b ≤ 255)
    (hx : x < w) (hy : y < h) :
    (raw_dataF w h r g b)[y * (1 + 3 * w) + (1 + 3 * x)]?
        = some (pyIntQ (fmul (r : ℚ) (factorF w h x y)))
  ∧ (raw_dataF w h r g b)[y * (1 + 3 * w) + (1 + 3 * x) + 1]?
        = some (pyIntQ (fmul (g : ℚ) (factorF w h x y)))
  ∧ (raw_dataF w h r g b)[y * (1 + 3 * w) + (1 + 3 * x) + 2]?
        = some (pyIntQ (fmul (b : ℚ) (factorF w h x y))) :=
  raw_dataF_pixel w h x y r g b hx hy

set_option maxRecDepth 40000 in
attribute [local semireducible] Rat.add Rat.sub Rat.mul Rat.inv in
/-- Witness for amended C1 at the concrete input (2, 2, 99, 102, 241),
pixel (1, 1), whose emitted color is exactly (99, 102, 241). -/
theorem c1_pixel_formula_binary64_witness :
    (1 : ℕ) ≤ 2 ∧ (241 : ℕ) ≤ 255 ∧ (1 : ℕ) < 2
  ∧ ((raw_dataF 2 2 99 102 241)[1 * (1 + 3 * 2) + (1 + 3 * 1)]?
        = some 99
    ∧ (raw_dataF 2 2 99 102 241)[1 * (1 + 3 * 2) + (1 + 3 * 1) + 1]?
        = some 102
    ∧ (raw_dataF 2 2 99 102 241)[1 * (1 + 3 * 2) + (1 + 3 * 1) + 2]?
        = some 241) := by
  have hp := c1_pixel_formula_binary64 2 2 1 1 99 102 241 (by decide)
    (by decide) (by decide) (by decide) (by decide) (by decide) (by decide)
  have h1 : pyIntQ (fmul ((99 : ℕ) : ℚ) (factorF 2 2 1 1)) = 99 := by decide
  have h2 : pyIntQ (fmul ((102 : ℕ) : ℚ) (factorF 2 2 1 1)) = 102 := by
    decide
  have h3 : pyIntQ (fmul ((241 : ℕ) : ℚ) (factorF 2 2 1 1)) = 241 := by
    decide
  rw [h1, h2, h3] at hp
  exact ⟨by decide, by decide, by decide, hp⟩

set_option maxRecDepth 40000 in
attribute [local semireducible] Rat.add Rat.sub Rat.mul Rat.inv in
/-- Counterexample to claim C6 as stated: with the identity compressor
at the valid input (2, 2, 90, 90, 90), the decoded IDAT payload is the
program's binary64 buffer, whose byte at offset 1 is 62, while the
exact-real reference grid has 63 there. -/
theorem c6_float_counterexample :
    idatPayload (create_pngF id 2 2 90 90 90)
        = some (id (raw_bytesF 2 2 90 90 90))
  ∧ (raw_bytesF 2 2 90 90 90)[1]? = some 62
  ∧ (refPixelGrid 2 2 90 90 90)[1]? = some 63 := by
  refine ⟨idatPayload_create_pngF id 2 2 90 90 90
    (by simp [raw_bytesF, raw_dataF_length]), ?_, ?_⟩
  · unfold raw_bytesF
    rw [List.getElem?_map]
    have hp := (raw_dataF_pixel 2 2 0 0 90 90 90 (by omega) (by omega)).1
    have hv : pyIntQ (fmul ((90 : ℕ) : ℚ) (factorF 2 2 0 0)) = 62 := by
      decide
    rw [hv] at hp
    simp only [show (0 : ℕ) * (1 + 3 * 2) + (1 + 3 * 0) = 1 by omega] at hp
    rw [hp]
    rfl
  · rw [← raw_bytes_eq_ref]
    unfold raw_bytes
    rw [List.getElem?_map]
    have hp := (raw_data_pixel 2 2 0 0 90 90 90 (by omega) (by omega)).1
    rw [corner_factor 2 2 (by norm_num)] at hp
    have hf : ⌊((90 : ℕ) : ℝ) * 0.7⌋ = 63 := by
      rw [Int.floor_eq_iff]
      norm_num
    rw [hf] at hp
    simp only [show (0 : ℕ) * (1 + 3 * 2) + (1 + 3 * 0) = 1 by omega] at hp
    rw [hp]
    rfl

/-- Claim C6 (amended): the IDAT payload is exactly the compressor's
output on the program's binary64 pixel buffer, so any decompressor
that inverts the compressor on that buffer recovers exactly the pixel
grid given by the gradient formula evaluated in binary64 arithmetic
with truncation toward zero. -/
theorem c6_roundtrip_binary64 (compress decompress : List ℕ → List ℕ)
    (w h r g b : ℕ)
    (hlen : (compress (raw_bytesF w h r g b)).length < 4294967296)
    (hrt : decompress (compress (raw_bytesF w h r g b))
      = raw_bytesF w h r g b) :
    idatPayload (create_pngF compress w h r g b)
        = some (compress (raw_bytesF w h r g b))
  ∧ (idatPayload (create_pngF compress w h r g b)).map decompress
        = some (refPixelGridF w h r g b) := by
  have hpay := idatPayload_create_pngF compress w h r g b hlen
  refine ⟨hpay, ?_⟩
  rw [hpay, Option.map_some', hrt, raw_bytesF_eq_refF]

/-- Witness for amended C6 at the concrete input (1, 1, 0, 0, 0) with
the identity compressor and decompressor. -/
theorem c6_roundtrip_binary64_witness :
    id (id (raw_bytesF 1 1 0 0 0)) = raw_bytesF 1 1 0 0 0
  ∧ (idatPayload (create_pngF id 1 1 0 0 0)
        = some (id (raw_bytesF 1 1 0 0 0))
    ∧ (idatPayload (create_pngF id 1 1 0 0 0)).map id
        = some (refPixelGridF 1 1 0 0 0)) :=
  ⟨rfl, c6_roundtrip_binary64 id id 1 1 0 0 0
    (by simp [raw_bytesF, raw_dataF_length]) rfl⟩

set_option maxRecDepth 40000 in
attribute [local semireducible] Rat.add Rat.sub Rat.mul Rat.inv in
/-- Counterexample to claim C9 as stated: at the valid inputs with
components 90 and 180, the program's corner pixel bytes are 62 and 125
(binary64 arithmetic), while the claim's floor(c * 0.7) gives 63 and
126. -/
theorem c9_float_counterexample :
    (raw_dataF 2 2 90 180 90)[1]? = some 62
  ∧ (raw_dataF 2 2 90 180 90)[2]? = some 125
  ∧ ⌊((90 : ℕ) : ℝ) * 0.7⌋ = 63 ∧ ⌊((180 : ℕ) : ℝ) * 0.7⌋ = 126 := by
  have hp := raw_dataF_pixel 2 2 0 0 90 180 90 (by omega) (by omega)
  have h1 : pyIntQ (fmul ((90 : ℕ) : ℚ) (factorF 2 2 0 0)) = 62 := by decide
  have h2 : pyIntQ (fmul ((180 : ℕ) : ℚ) (factorF 2 2 0 0)) = 125 := by
    decide
  refine ⟨?_, ?_, ?_, ?_⟩
  · have hq := hp.1
    rw [h1] at hq
    simpa using hq
  · have hq := hp.2.1
    rw [h2] at hq
    simpa using hq
  · rw [Int.floor_eq_iff]
    norm_num
  · rw [Int.floor_eq_iff]
    norm_num

/-- Claim C9 (amended): the corner pixel (0, 0) receives the program's
binary64 corner factor — the double nearest 0.7, slightly below it —
and its emitted color is the truncation toward zero of each component
times that factor, computed in binary64 arithmetic. -/
theorem c9_corner_pixel_binary64 (w h r g b : ℕ) (hw : 1 ≤ w)
    (hh : 1 ≤ h) :
    (raw_dataF w h r g b)[1]?
        = some (pyIntQ (fmul (r : ℚ) (factorF w h 0 0)))
  ∧ (raw_dataF w h r g b)[2]?
        = some (pyIntQ (fmul (g : ℚ) (factorF w h 0 0)))
  ∧ (raw_dataF w h r g b)[3]?
        = some (pyIntQ (fmul (b : ℚ) (factorF w h 0 0))) := by
  have hp := raw_dataF_pixel w h 0 0 r g b (by omega) (by omega)
  simpa using hp

set_option maxRecDepth 40000 in
attribute [local semireducible] Rat.add Rat.sub Rat.mul Rat.inv in
/-- Witness for amended C9: the binary64 corner factor of the 2x2 image
is exactly the double nearest 0.7, and the spec's concrete scenario
encode(2, 2, 99, 102, 241) gives pixel (0, 0) the color (69, 71, 168). -/
theorem c9_corner_pixel_binary64_witness :
    (1 : ℕ) ≤ 2
  ∧ factorF 2 2 0 0 = 6305039478318694 / 2 ^ 53
  ∧ ((raw_dataF 2 2 99 102 241)[1]? = some 69
    ∧ (raw_dataF 2 2 99 102 241)[2]? = some 71
    ∧ (raw_dataF 2 2 99 102 241)[3]? = some 168) := by
  have hp := c9_corner_pixel_binary64 2 2 99 102 241 (by decide) (by decide)
  have h1 : pyIntQ (fmul ((99 : ℕ) : ℚ) (factorF 2 2 0 0)) = 69 := by decide
  have h2 : pyIntQ (fmul ((102 : ℕ) : ℚ) (factorF 2 2 0 0)) = 71 := by
    decide
  have h3 : pyIntQ (fmul ((241 : ℕ) : ℚ) (factorF 2 2 0 0)) = 168 := by
    decide
  rw [h1, h2, h3] at hp
  exact ⟨by decide, by decide, hp⟩

end GenerateIcons
